import Mathlib

/-!
Verification of the `aurora_asi` repository's download/load core.

The development shallowly embeds the two source files that the claims
concern:

* `asi/download/download_rego.py` — `download` and `search_hrefs`
  (the Remote Directory Resolver and the Downloader);
* `asilib/imager.py` — the `Imager` facade (`__init__`, `download`,
  `load`, `_check_time_range_exists`).

Python strings are modelled as `List Char`; the HTTP world (directory
listings and GET responses) and the `asilib.io.load` helpers
(`get_frames`, `load_cal`, `_validate_time_range`) are external
collaborators and enter as explicit environment records.  Python
exceptions are values of `PyExc`; `Except PyExc` models raise/propagate
control flow.
-/

/-! ## Strings and ASCII case mapping

`Char.toLower`/`Char.toUpper` of core Lean are exactly the ASCII case
maps that Python's `str.lower`/`str.upper` perform on the ASCII station
codes, patterns and file names this code handles. -/

/-- Python `s.lower()` (ASCII range). -/
def lowerStr (s : List Char) : List Char := s.map Char.toLower

/-- Python `s.upper()` (ASCII range). -/
def upperStr (s : List Char) : List Char := s.map Char.toUpper

theorem char_toNat_ofNat_valid {n : Nat} (h : n.isValidChar) :
    (Char.ofNat n).toNat = n := by
  unfold Char.ofNat
  rw [dif_pos h]
  simp [Char.ofNatAux, Char.toNat, UInt32.toNat]

theorem toUpper_toNat_lt (c : Char) : (Char.toUpper c).toNat < 97 ∨ Char.toUpper c = c := by
  unfold Char.toUpper
  by_cases h : c.toNat ≥ 97 ∧ c.toNat ≤ 122
  · rw [if_pos h]
    left
    have hv : (c.toNat - 32).isValidChar := by
      left
      omega
    rw [char_toNat_ofNat_valid hv]
    omega
  · rw [if_neg h]
    right
    rfl

theorem toUpper_fix_of_lt97 (c : Char) (h : c.toNat < 97) : Char.toUpper c = c := by
  unfold Char.toUpper
  rw [if_neg]
  omega

theorem toUpper_idem (c : Char) : Char.toUpper (Char.toUpper c) = Char.toUpper c := by
  rcases toUpper_toNat_lt c with h | h
  · exact toUpper_fix_of_lt97 _ h
  · rw [h, h]

theorem toLower_fix_of_lt97 (c d : Char) (hd : d.toNat < 97)
    (h : Char.toLower c = d) : c = d := by
  unfold Char.toLower at h
  by_cases hc : c.toNat ≥ 65 ∧ c.toNat ≤ 90
  · rw [if_pos hc] at h
    have hv : (c.toNat + 32).isValidChar := by
      left
      omega
    have := char_toNat_ofNat_valid hv
    rw [h] at this
    omega
  · rwa [if_neg hc] at h

theorem map_toLower_eq_self_of_lt97 :
    ∀ (m p : List Char), (∀ d ∈ p, d.toNat < 97) → m.map Char.toLower = p → m = p := by
  intro m
  induction m with
  | nil =>
    intro p _ h
    exact h
  | cons c m ih =>
    intro p hp h
    cases p with
    | nil => simp at h
    | cons d p =>
      simp only [List.map_cons, List.cons.injEq] at h
      have hc : c = d := toLower_fix_of_lt97 c d (hp d (List.mem_cons_self d p)) h.1
      have hm : m = p := ih p (fun x hx => hp x (List.mem_cons_of_mem d hx)) h.2
      rw [hc, hm]

/-- A caseless pattern (every character below code point 97, e.g. digits and
underscore) that occurs in the lowercased haystack occurs in the haystack
itself. -/
theorem infix_of_infix_lowerStr (p f : List Char)
    (h97 : ∀ d ∈ p, d.toNat < 97) (hinf : p <:+: lowerStr f) : p <:+: f := by
  obtain ⟨s, t, hst⟩ := hinf
  unfold lowerStr at hst
  rw [List.append_assoc] at hst
  obtain ⟨l₁, l₂, hf, _, h₂⟩ := List.map_eq_append_iff.mp hst.symm
  obtain ⟨l₃, l₄, hl₂, h₃, _⟩ := List.map_eq_append_iff.mp h₂
  have : l₃ = p := map_toLower_eq_self_of_lt97 l₃ p h97 h₃
  exact ⟨l₁, l₄, by rw [hf, hl₂, this, List.append_assoc]⟩

/-! ## Python exceptions and the HTTP world -/

/-- The Python exceptions the modelled code raises, catches or propagates.
`fileNotFound` is `FileNotFoundError`, `notADirectory` is
`NotADirectoryError` (a sibling of `FileNotFoundError`, not a subclass),
`attributeError` is `AttributeError`, `other` is any other exception.
The payload is `str(err)`. -/
inductive PyExc where
  | fileNotFound (msg : List Char)
  | notADirectory (msg : List Char)
  | attributeError (msg : List Char)
  | other (msg : List Char)
deriving DecidableEq

/-- An HTTP response as used by the code: `requests.get` result with its
status code and raw body. -/
structure Resp where
  status : Nat
  content : List Char
deriving DecidableEq

/-- The remote server, seen through `requests`:
`hrefs url` is the parsed directory listing at `url` (the `href` texts
that `BeautifulSoup` extracts, in page order) or a raised network
exception; `get url` is a raw `requests.get(url, allow_redirects=False)`
or a raised network exception.  HTML parsing is an external collaborator,
so the listing arrives already extracted. -/
structure World where
  hrefs : List Char → Except PyExc (List (List Char))
  get : List Char → Except PyExc Resp

/-! ## search_hrefs (Remote Directory Resolver) -/

/-- The `'../'` parent-directory link. -/
def parentHref : List Char := ("../").toList

/-- The filter applied to each href in `search_hrefs`:
`(href.text != '../') and (search_pattern.lower() in href.text.lower())`. -/
def hrefMatch (pattern : List Char) (h : List Char) : Bool :=
  decide (h ≠ parentHref ∧ lowerStr pattern <:+: lowerStr h)

/-- The `NotADirectoryError` message built by `search_hrefs`. -/
def searchErrMsg (url pattern : List Char) : List Char :=
  ("The url ").toList ++ url ++
    (" does not contain any hyper references containing the search_pattern=\"").toList ++
    pattern ++ ("\".").toList

/-- `search_hrefs(url, search_pattern)` from `asi/download/download_rego.py`:
fetch the listing at `url`, keep the hrefs other than `'../'` whose text
contains the pattern case-insensitively, and raise `NotADirectoryError`
when nothing matched. -/
def search_hrefs (w : World) (url : List Char) (pattern : List Char) :
    Except PyExc (List (List Char)) :=
  match w.hrefs url with
  | .error e => .error e
  | .ok listing =>
      let matched := listing.filter (hrefMatch pattern)
      if matched = [] then .error (.notADirectory (searchErrMsg url pattern))
      else .ok matched

theorem search_hrefs_ok_ne_nil (w : World) (url pattern : List Char)
    (l : List (List Char)) (h : search_hrefs w url pattern = .ok l) : l ≠ [] := by
  unfold search_hrefs at h
  cases hh : w.hrefs url with
  | error e => rw [hh] at h; exact absurd h (by simp)
  | ok listing =>
    rw [hh] at h
    by_cases hm : listing.filter (hrefMatch pattern) = []
    · simp [hm] at h
    · simp only [hm, if_neg] at h
      cases h
      exact hm

/-- Claim C2: for every URL and pattern, if the filtered directory listing is
empty then `search_hrefs` raises `NotADirectoryError` whose message carries
the URL and the pattern, and a successful return is never the empty list. -/
theorem search_hrefs_empty_is_error (w : World) (url pattern : List Char)
    (listing : List (List Char)) (hw : w.hrefs url = .ok listing) :
    (listing.filter (hrefMatch pattern) = [] →
      search_hrefs w url pattern = .error (.notADirectory (searchErrMsg url pattern)) ∧
      url <:+: searchErrMsg url pattern ∧ pattern <:+: searchErrMsg url pattern) ∧
    (∀ l, search_hrefs w url pattern = .ok l → l ≠ []) := by
  constructor
  · intro hempty
    refine ⟨?_, ?_, ?_⟩
    · unfold search_hrefs
      rw [hw]
      simp [hempty]
    · exact ⟨("The url ").toList,
        (" does not contain any hyper references containing the search_pattern=\"").toList ++
          pattern ++ ("\".").toList,
        by simp [searchErrMsg, List.append_assoc]⟩
    · exact ⟨("The url ").toList ++ url ++
        (" does not contain any hyper references containing the search_pattern=\"").toList,
        ("\".").toList,
        by simp [searchErrMsg, List.append_assoc]⟩
  · exact search_hrefs_ok_ne_nil w url pattern

/-- Witness for C2 at a concrete world: a listing with no match for the
pattern raises, with URL and pattern in the message. -/
theorem search_hrefs_empty_is_error_witness :
    ((([("a.png").toList]).filter (hrefMatch (("zzz").toList)) = [] →
      search_hrefs
          (World.mk (fun _ => .ok [("a.png").toList]) (fun _ => .error (.other [])))
          (("http://x/").toList) (("zzz").toList) =
        .error (.notADirectory (searchErrMsg (("http://x/").toList) (("zzz").toList))) ∧
      ("http://x/").toList <:+: searchErrMsg (("http://x/").toList) (("zzz").toList) ∧
      ("zzz").toList <:+: searchErrMsg (("http://x/").toList) (("zzz").toList)) ∧
    (∀ l, search_hrefs
          (World.mk (fun _ => .ok [("a.png").toList]) (fun _ => .error (.other [])))
          (("http://x/").toList) (("zzz").toList) = .ok l → l ≠ [])) :=
  search_hrefs_empty_is_error
    (World.mk (fun _ => .ok [("a.png").toList]) (fun _ => .error (.other [])))
    (("http://x/").toList) (("zzz").toList) [("a.png").toList] rfl

/-- Claim C5: on success `search_hrefs` returns exactly the non-parent
entries containing the pattern case-insensitively (all non-parent entries
for the empty pattern), in listing order. -/
theorem search_hrefs_filter_spec (w : World) (url pattern : List Char)
    (listing res : List (List Char)) (hw : w.hrefs url = .ok listing)
    (hres : search_hrefs w url pattern = .ok res) :
    res = listing.filter (hrefMatch pattern) ∧
    (∀ x, x ∈ res ↔ x ∈ listing ∧ x ≠ parentHref ∧ lowerStr pattern <:+: lowerStr x) ∧
    res.Sublist listing ∧
    (pattern = [] → res = listing.filter (fun h => decide (h ≠ parentHref))) := by
  have hres' : res = listing.filter (hrefMatch pattern) := by
    unfold search_hrefs at hres
    rw [hw] at hres
    by_cases hm : listing.filter (hrefMatch pattern) = []
    · simp [hm] at hres
    · simp only [hm, if_neg] at hres
      cases hres
      rfl
  refine ⟨hres', ?_, ?_, ?_⟩
  · intro x
    rw [hres', List.mem_filter]
    unfold hrefMatch
    simp
  · rw [hres']
    exact List.filter_sublist listing
  · intro hp
    rw [hres']
    apply List.filter_congr
    intro a _
    unfold hrefMatch
    rw [hp]
    simp only [lowerStr, List.map_nil, decide_eq_decide]
    constructor
    · intro h
      exact h.1
    · intro h
      exact ⟨h, ⟨[], a.map Char.toLower, by simp⟩⟩

/-- Witness for C5 at a concrete listing: pattern `"ab"` retains, in order,
exactly the non-parent entries containing it case-insensitively. -/
theorem search_hrefs_filter_spec_witness :
    [("xAbY").toList, ("ab.z").toList] =
        ([parentHref, ("xAbY").toList, ("q").toList, ("ab.z").toList]).filter
          (hrefMatch (("ab").toList)) ∧
    (∀ x, x ∈ [("xAbY").toList, ("ab.z").toList] ↔
        x ∈ [parentHref, ("xAbY").toList, ("q").toList, ("ab.z").toList] ∧
        x ≠ parentHref ∧ lowerStr (("ab").toList) <:+: lowerStr x) ∧
    ([("xAbY").toList, ("ab.z").toList]).Sublist
        [parentHref, ("xAbY").toList, ("q").toList, ("ab.z").toList] ∧
    ((("ab").toList) = ([] : List Char) →
      [("xAbY").toList, ("ab.z").toList] =
        ([parentHref, ("xAbY").toList, ("q").toList, ("ab.z").toList]).filter
          (fun h => decide (h ≠ parentHref))) :=
  search_hrefs_filter_spec
    (World.mk (fun _ => .ok [parentHref, ("xAbY").toList, ("q").toList, ("ab.z").toList])
      (fun _ => .error (.other [])))
    (("http://x/").toList) (("ab").toList)
    [parentHref, ("xAbY").toList, ("q").toList, ("ab.z").toList]
    [("xAbY").toList, ("ab.z").toList] rfl (by rfl)

/-! ## Timestamps

`datetime.datetime` as used by the modelled code: calendar fields down to
microseconds. -/

/-- A `datetime.datetime` value. -/
structure DT where
  year : Nat
  month : Nat
  day : Nat
  hour : Nat
  minute : Nat
  second : Nat
  usec : Nat
deriving DecidableEq

/-- Python `str(n)` for a natural number. -/
def natStr (n : Nat) : List Char := Nat.toDigits 10 n

/-- Python `s.zfill(k)`: left-pad with `'0'` to width `k`. -/
def zfill (k : Nat) (s : List Char) : List Char :=
  List.replicate (k - s.length) '0' ++ s

/-! ## download (Downloader) -/

/-- `BASE_URL` of `asi/download/download_rego.py`. -/
def BASE_URL : List Char :=
  ("https://data.phys.ucalgary.ca/sort_by_project/GO-Canada/REGO/stream0/").toList

/-- The year/month/day directory URL built by `download`:
`BASE_URL + f'[year]/[month:02]/[day:02]/'` (year unpadded, month and day
zero-filled to two digits, as in the source). -/
def dayUrl (d : DT) : List Char :=
  BASE_URL ++ natStr d.year ++ ("/").toList ++ zfill 2 (natStr d.month) ++ ("/").toList ++
    zfill 2 (natStr d.day) ++ ("/").toList

/-- The station/hour directory URL: `url += f'[station_url[0]]ut[hour:02]/'`
where `station_url` is the first resolver match for the station. -/
def hourUrl (d : DT) (station_url : List (List Char)) : List Char :=
  dayUrl d ++ station_url.headD [] ++ ("ut").toList ++ zfill 2 (natStr d.hour) ++ ("/").toList

/-- `day.strftime('%Y%m%d_%H%M')`: the minute-file search pattern. -/
def minutePattern (d : DT) : List Char :=
  zfill 4 (natStr d.year) ++ zfill 2 (natStr d.month) ++ zfill 2 (natStr d.day) ++
    [ '_' ] ++ zfill 2 (natStr d.hour) ++ zfill 2 (natStr d.minute)

/-- The local target path `config.ASI_DATA_DIR / 'rego' / file_name`,
with the configured data root left implicit. -/
def localPath (name : List Char) : List Char := ("rego/").toList ++ name

/-- The local filesystem: a map from paths to file contents. -/
abbrev FS := List Char → Option (List Char)

/-- `open(path, 'wb').write(content)`: truncate-and-write. -/
def fsWrite (fs : FS) (p v : List Char) : FS :=
  fun q => if q = p then some v else fs q

/-- One network request issued by `download`: a directory-listing fetch
(inside `search_hrefs`) or a file fetch. -/
inductive Req where
  | listing (url : List Char)
  | file (url : List Char)
deriving DecidableEq

/-- Outcome of a `download` call: the filesystem afterwards, the requests
issued (in order), and the exception propagated, if any. -/
structure DlResult where
  fs : FS
  reqs : List Req
  err : Option PyExc

/-- The file URLs among a request log. -/
def fileReqs (rs : List Req) : List (List Char) :=
  rs.filterMap (fun r => match r with | .file u => some u | .listing _ => none)

/-- The `for file_name in file_names:` loop of the hour branch of
`download`: fetch and write each file in turn; an exception aborts the
loop, leaving the files already written. -/
def hourLoop (w : World) (url : List Char) (files : List (List Char)) (fs : FS) : DlResult :=
  match files with
  | [] => ⟨fs, [], none⟩
  | f :: rest =>
    match w.get (url ++ f) with
    | .error e => ⟨fs, [.file (url ++ f)], some e⟩
    | .ok r =>
      ⟨(hourLoop w url rest (fsWrite fs (localPath f) r.content)).fs,
        .file (url ++ f) :: (hourLoop w url rest (fsWrite fs (localPath f) r.content)).reqs,
        (hourLoop w url rest (fsWrite fs (localPath f) r.content)).err⟩

/-- `download(day, station, download_minute)` from
`asi/download/download_rego.py`.  String days are already parsed
(`dateutil.parser.parse` is an external collaborator), the `rego`
directory creation has no effect on the file map, and each `search_hrefs`
call issues one listing request.  The response body is written without
inspecting the HTTP status (`allow_redirects=False`, no status check in
the source). -/
def download (w : World) (fs : FS) (day : DT) (station : List Char)
    (download_minute : Bool) : DlResult :=
  match search_hrefs w (dayUrl day) (lowerStr station) with
  | .error e => ⟨fs, [.listing (dayUrl day)], some e⟩
  | .ok station_url =>
    let url := hourUrl day station_url
    if download_minute then
      match search_hrefs w url (minutePattern day) with
      | .error e => ⟨fs, [.listing (dayUrl day), .listing url], some e⟩
      | .ok file_names =>
        match w.get (url ++ file_names.headD []) with
        | .error e =>
          ⟨fs, [.listing (dayUrl day), .listing url, .file (url ++ file_names.headD [])], some e⟩
        | .ok r =>
          ⟨fsWrite fs (localPath (file_names.headD [])) r.content,
            [.listing (dayUrl day), .listing url, .file (url ++ file_names.headD [])], none⟩
    else
      match search_hrefs w url [] with
      | .error e => ⟨fs, [.listing (dayUrl day), .listing url], some e⟩
      | .ok file_names =>
        ⟨(hourLoop w url file_names fs).fs,
          .listing (dayUrl day) :: .listing url :: (hourLoop w url file_names fs).reqs,
          (hourLoop w url file_names fs).err⟩

/-! ### Filesystem-independence of the download control flow

`download` never reads the local filesystem: which requests it issues,
which exception it raises, and what it writes at each path do not depend
on the initial filesystem state. -/

theorem hourLoop_reqs_err_indep (w : World) (url : List Char)
    (files : List (List Char)) :
    ∀ fs fs' : FS, (hourLoop w url files fs).reqs = (hourLoop w url files fs').reqs ∧
      (hourLoop w url files fs).err = (hourLoop w url files fs').err := by
  induction files with
  | nil => intro fs fs'; exact ⟨rfl, rfl⟩
  | cons f rest ih =>
    intro fs fs'
    unfold hourLoop
    cases w.get (url ++ f) with
    | error e => exact ⟨rfl, rfl⟩
    | ok r =>
      have h := ih (fsWrite fs (localPath f) r.content) (fsWrite fs' (localPath f) r.content)
      exact ⟨congrArg (List.cons (Req.file (url ++ f))) h.1, h.2⟩

theorem hourLoop_point (w : World) (url : List Char) (files : List (List Char))
    (q : List Char) :
    (∀ fs : FS, (hourLoop w url files fs).fs q = fs q) ∨
    (∃ v, ∀ fs : FS, (hourLoop w url files fs).fs q = some v) := by
  induction files with
  | nil => left; intro fs; rfl
  | cons f rest ih =>
    cases hg : w.get (url ++ f) with
    | error e =>
      left
      intro fs
      unfold hourLoop
      rw [hg]
    | ok r =>
      rcases ih with hleft | ⟨v, hright⟩
      · by_cases hq : q = localPath f
        · right
          refine ⟨r.content, fun fs => ?_⟩
          unfold hourLoop
          rw [hg]
          simp only [hleft, fsWrite, if_pos hq]
        · left
          intro fs
          unfold hourLoop
          rw [hg]
          simp only [hleft, fsWrite, if_neg hq]
      · right
        refine ⟨v, fun fs => ?_⟩
        unfold hourLoop
        rw [hg]
        exact hright _

/-- Claim C1 (amended): `download` performs no local-existence check, so a
repeated call for the same bucket issues exactly the same network requests
again, raises the same exception, and leaves the same file contents. -/
theorem download_repeat_same_effect (w : World) (fs : FS) (d : DT)
    (st : List Char) (m : Bool) :
    (download w (download w fs d st m).fs d st m).reqs = (download w fs d st m).reqs ∧
    (download w (download w fs d st m).fs d st m).err = (download w fs d st m).err ∧
    ∀ q, (download w (download w fs d st m).fs d st m).fs q = (download w fs d st m).fs q := by
  cases h₁ : search_hrefs w (dayUrl d) (lowerStr st) with
  | error e => refine ⟨?_, ?_, fun q => ?_⟩ <;> simp only [download, h₁, if_true, Bool.false_eq_true, if_false]
  | ok station_url =>
    cases m with
    | true =>
      cases h₂ : search_hrefs w (hourUrl d station_url) (minutePattern d) with
      | error e => refine ⟨?_, ?_, fun q => ?_⟩ <;> simp only [download, h₁, h₂, if_true, Bool.false_eq_true, if_false]
      | ok file_names =>
        cases h₃ : w.get (hourUrl d station_url ++ file_names.headD []) with
        | error e => refine ⟨?_, ?_, fun q => ?_⟩ <;> simp only [download, h₁, h₂, h₃, if_true, Bool.false_eq_true, if_false]
        | ok r =>
          refine ⟨?_, ?_, fun q => ?_⟩ <;> simp only [download, h₁, h₂, h₃, if_true, Bool.false_eq_true, if_false]
          unfold fsWrite
          by_cases hq : q = localPath (file_names.headD [])
          · simp only [if_pos hq]
          · simp only [if_neg hq]
    | false =>
      cases h₂ : search_hrefs w (hourUrl d station_url) [] with
      | error e => refine ⟨?_, ?_, fun q => ?_⟩ <;> simp only [download, h₁, h₂, if_true, Bool.false_eq_true, if_false]
      | ok file_names =>
        have hre := hourLoop_reqs_err_indep w (hourUrl d station_url) file_names
          ((hourLoop w (hourUrl d station_url) file_names fs).fs) fs
        refine ⟨?_, ?_, fun q => ?_⟩ <;> simp only [download, h₁, h₂, if_true, Bool.false_eq_true, if_false]
        · rw [hre.1]
        · rw [hre.2]
        · rcases hourLoop_point w (hourUrl d station_url) file_names q with hl | ⟨v, hr⟩
          · rw [hl]
          · rw [hr, hr]

/-! ### A concrete bucket: 2017-04-13T05:10, station LUCK -/

/-- The bucket of the spec's worked example: `datetime(2017, 4, 13, 5, 10)`. -/
def demoDay : DT := ⟨2017, 4, 13, 5, 10, 0, 0⟩

/-- Station code as the caller passes it. -/
def demoStation : List Char := ("LUCK").toList

/-- The station sub-directory entry in the day listing. -/
def demoStationDir : List Char := ("luck_rego/").toList

/-- The minute file entry in the hour listing. -/
def demoFname : List Char := ("20170413_0510_luck_rego-full.pgm.gz").toList

/-- Image bytes served for the minute file. -/
def demoBody : List Char := ("IMGBYTES").toList

/-- Directory listings of the concrete remote server: the day directory
holds the station directory, the hour directory holds the minute file. -/
def demoHrefs : List Char → Except PyExc (List (List Char)) :=
  fun u =>
    if u = dayUrl demoDay then .ok [demoStationDir]
    else if u = hourUrl demoDay [demoStationDir] then .ok [demoFname]
    else .error (.other [])

/-- A healthy remote server: every file fetch returns 200 with the image. -/
def demoWorld : World := ⟨demoHrefs, fun _ => .ok ⟨200, demoBody⟩⟩

/-- Counterexample to claim C1 as stated: after a first `download` call has
left the minute file on disk, a second identical call still issues network
requests (the code never checks local existence). -/
theorem download_second_request_counterexample :
    (download demoWorld (fun _ => none) demoDay demoStation true).fs
        (localPath demoFname) = some demoBody ∧
    (download demoWorld
        (download demoWorld (fun _ => none) demoDay demoStation true).fs
        demoDay demoStation true).reqs ≠ [] := by
  refine ⟨?_, ?_⟩ <;> decide

/-! ### What download writes (claim C4) -/

theorem hourLoop_writes (w : World) (url : List Char) (files : List (List Char)) :
    ∀ (fs : FS) (q : List Char), (hourLoop w url files fs).fs q = fs q ∨
      ∃ u r, w.get u = .ok r ∧ (hourLoop w url files fs).fs q = some r.content := by
  induction files with
  | nil => intro fs q; left; rfl
  | cons f rest ih =>
    intro fs q
    cases hg : w.get (url ++ f) with
    | error e =>
      left
      unfold hourLoop
      rw [hg]
    | ok r =>
      have hstep : (hourLoop w url (f :: rest) fs).fs =
          (hourLoop w url rest (fsWrite fs (localPath f) r.content)).fs := by
        simp only [hourLoop, hg]
      rcases ih (fsWrite fs (localPath f) r.content) q with hl | ⟨u, r', hu, hv⟩
      · rw [hstep, hl]
        unfold fsWrite
        by_cases hq : q = localPath f
        · right
          exact ⟨url ++ f, r, hg, by rw [if_pos hq]⟩
        · left
          rw [if_neg hq]
      · right
        exact ⟨u, r', hu, by rw [hstep, hv]⟩

/-- Claim C4 (amended): `download` leaves every path either untouched or
holding the complete body of a response that `requests.get` actually
returned.  A raised exception (network failure or resolver miss) therefore
leaves no partial file; but the body is written regardless of the HTTP
status code, so a non-success response is still written out. -/
theorem download_writes_full_bodies_only (w : World) (fs : FS) (d : DT)
    (st : List Char) (m : Bool) (q : List Char) :
    (download w fs d st m).fs q = fs q ∨
    ∃ u r, w.get u = .ok r ∧ (download w fs d st m).fs q = some r.content := by
  cases h₁ : search_hrefs w (dayUrl d) (lowerStr st) with
  | error e => left; simp only [download, h₁]
  | ok station_url =>
    cases m with
    | true =>
      cases h₂ : search_hrefs w (hourUrl d station_url) (minutePattern d) with
      | error e => left; simp only [download, h₁, h₂, if_true]
      | ok file_names =>
        cases h₃ : w.get (hourUrl d station_url ++ file_names.headD []) with
        | error e => left; simp only [download, h₁, h₂, h₃, if_true]
        | ok r =>
          by_cases hq : q = localPath (file_names.headD [])
          · right
            refine ⟨hourUrl d station_url ++ file_names.headD [], r, h₃, ?_⟩
            simp only [download, h₁, h₂, h₃, if_true, fsWrite, if_pos hq]
          · left
            simp only [download, h₁, h₂, h₃, if_true, fsWrite, if_neg hq]
    | false =>
      cases h₂ : search_hrefs w (hourUrl d station_url) [] with
      | error e => left; simp only [download, h₁, h₂, Bool.false_eq_true, if_false]
      | ok file_names =>
        have h := hourLoop_writes w (hourUrl d station_url) file_names fs q
        rcases h with hl | ⟨u, r, hu, hv⟩
        · left
          simp only [download, h₁, h₂, Bool.false_eq_true, if_false]
          exact hl
        · right
          refine ⟨u, r, hu, ?_⟩
          simp only [download, h₁, h₂, Bool.false_eq_true, if_false]
          exact hv

/-- Body served for the failing fetch in the C4 counterexample. -/
def errorPage : List Char := ("NOT FOUND").toList

/-- A remote server whose file fetches fail with HTTP 404 carrying an
error page as the body. -/
def notFoundWorld : World := ⟨demoHrefs, fun _ => .ok ⟨404, errorPage⟩⟩

/-- Counterexample to claim C4 as stated: a non-success (404) HTTP response
does leave a file behind — its body is written to the target path and the
call reports no error. -/
theorem download_nonsuccess_writes_counterexample :
    notFoundWorld.get (hourUrl demoDay [demoStationDir] ++ demoFname) =
      .ok ⟨404, errorPage⟩ ∧
    (download notFoundWorld (fun _ => none) demoDay demoStation true).fs
        (localPath demoFname) = some errorPage ∧
    (download notFoundWorld (fun _ => none) demoDay demoStation true).err = none := by
  refine ⟨rfl, ?_, ?_⟩ <;> decide

/-! ### Claim C6: minute granularity downloads exactly one file -/

/-- Characters without a distinct case partner under ASCII lowercasing:
digits, underscore and the rest of the code points below `'a'` that are
not uppercase letters. -/
def caselessChar (c : Char) : Prop := c.toNat < 65 ∨ (90 < c.toNat ∧ c.toNat < 97)

instance (c : Char) : Decidable (caselessChar c) := by
  unfold caselessChar
  infer_instance

theorem toLower_fix_of_caseless (c : Char) (h : caselessChar c) :
    Char.toLower c = c := by
  unfold Char.toLower
  rw [if_neg]
  unfold caselessChar at h
  omega

theorem lowerStr_fix_of_caseless (p : List Char) (h : ∀ c ∈ p, caselessChar c) :
    lowerStr p = p := by
  induction p with
  | nil => rfl
  | cons c p ih =>
    have hih := ih (fun x hx => h x (List.mem_cons_of_mem c hx))
    unfold lowerStr at hih ⊢
    rw [List.map_cons, toLower_fix_of_caseless c (h c (List.mem_cons_self c p)), hih]

theorem search_hrefs_ok_elim (w : World) (url pattern : List Char)
    (l : List (List Char)) (h : search_hrefs w url pattern = .ok l) :
    ∃ L, w.hrefs url = .ok L ∧ l = L.filter (hrefMatch pattern) := by
  unfold search_hrefs at h
  cases hh : w.hrefs url with
  | error e => rw [hh] at h; exact absurd h (by simp)
  | ok L =>
    rw [hh] at h
    by_cases hm : L.filter (hrefMatch pattern) = []
    · simp [hm] at h
    · simp only [hm, if_neg] at h
      cases h
      exact ⟨L, rfl, rfl⟩

/-- Claim C6: with minute granularity and resolvable listings, `download`
attempts exactly one file fetch, at the hour URL extended with the first
listing entry that matches the `'%Y%m%d_%H%M'` pattern of the requested
day (first match wins when several entries match); the matched file name
contains the pattern case-insensitively, hence literally whenever the
pattern is caseless (as every `'%Y%m%d_%H%M'` instance is). -/
theorem download_minute_single_file (w : World) (fs : FS) (d : DT) (st : List Char)
    (l₁ l₂ : List (List Char)) (r : Resp)
    (h₁ : search_hrefs w (dayUrl d) (lowerStr st) = .ok l₁)
    (h₂ : search_hrefs w (hourUrl d l₁) (minutePattern d) = .ok l₂)
    (h₃ : w.get (hourUrl d l₁ ++ l₂.headD []) = .ok r) :
    fileReqs (download w fs d st true).reqs = [hourUrl d l₁ ++ l₂.headD []] ∧
    (download w fs d st true).err = none ∧
    (download w fs d st true).fs (localPath (l₂.headD [])) = some r.content ∧
    (∃ L, w.hrefs (hourUrl d l₁) = .ok L ∧ l₂ = L.filter (hrefMatch (minutePattern d)) ∧
      L.find? (hrefMatch (minutePattern d)) = some (l₂.headD [])) ∧
    lowerStr (minutePattern d) <:+: lowerStr (l₂.headD []) ∧
    ((∀ c ∈ minutePattern d, caselessChar c) → minutePattern d <:+: l₂.headD []) := by
  have hne : l₂ ≠ [] := search_hrefs_ok_ne_nil w (hourUrl d l₁) (minutePattern d) l₂ h₂
  obtain ⟨x, xs, rfl⟩ := List.exists_cons_of_ne_nil hne
  obtain ⟨L, hL, hfil⟩ := search_hrefs_ok_elim w (hourUrl d l₁) (minutePattern d) (x :: xs) h₂
  have hmem : x ∈ L.filter (hrefMatch (minutePattern d)) := by
    rw [← hfil]
    exact List.mem_cons_self x xs
  have hmatch : hrefMatch (minutePattern d) x = true := (List.mem_filter.mp hmem).2
  have hinf : lowerStr (minutePattern d) <:+: lowerStr x := by
    have := of_decide_eq_true hmatch
    exact this.2
  refine ⟨?_, ?_, ?_, ⟨L, hL, hfil, ?_⟩, hinf, ?_⟩
  · simp only [download, h₁, h₂, h₃, if_true]
    rfl
  · simp only [download, h₁, h₂, h₃, if_true]
  · simp only [download, h₁, h₂, h₃, if_true, fsWrite, if_pos]
  · rw [← List.filter_head?, ← hfil]
    rfl
  · intro hcl
    have h97 : ∀ c ∈ minutePattern d, c.toNat < 97 := by
      intro c hc
      rcases hcl c hc with h | h
      · omega
      · omega
    have hfix : lowerStr (minutePattern d) = minutePattern d :=
      lowerStr_fix_of_caseless _ hcl
    rw [hfix] at hinf
    exact infix_of_infix_lowerStr _ _ h97 hinf

/-- Witness for C6 at the spec's worked example: day 2017-04-13T05:10,
station LUCK; the pattern is `'20170413_0510'`, exactly one file request is
issued, and the fetched file name contains the pattern. -/
theorem download_minute_single_file_witness :
    minutePattern demoDay = ("20170413_0510").toList ∧
    fileReqs (download demoWorld (fun _ => none) demoDay demoStation true).reqs =
      [hourUrl demoDay [demoStationDir] ++ demoFname] ∧
    minutePattern demoDay <:+: demoFname := by
  have h := download_minute_single_file demoWorld (fun _ => none) demoDay demoStation
    [demoStationDir] [demoFname] ⟨200, demoBody⟩ rfl rfl rfl
  exact ⟨by decide, h.1, h.2.2.2.2.2 (by decide)⟩

/-! ## Python str.split() on whitespace -/

/-- Helper for `splitWs`: scan the characters, accumulating the current
token in reverse; whitespace runs separate tokens and empty tokens are
dropped, as in Python `str.split()` with no argument. -/
def splitWsAux : List Char → List Char → List (List Char)
  | [], acc => if acc = [] then [] else [acc.reverse]
  | c :: cs, acc =>
    if c.isWhitespace then
      (if acc = [] then splitWsAux cs [] else acc.reverse :: splitWsAux cs [])
    else splitWsAux cs (c :: acc)

/-- Python `s.split()`: split on whitespace runs, discarding empties. -/
def splitWs (l : List Char) : List (List Char) := splitWsAux l []

theorem splitWsAux_chars_subset :
    ∀ (l acc : List Char) (t : List Char), t ∈ splitWsAux l acc →
      ∀ c ∈ t, c ∈ l ∨ c ∈ acc := by
  intro l
  induction l with
  | nil =>
    intro acc t ht c hc
    unfold splitWsAux at ht
    by_cases ha : acc = []
    · rw [if_pos ha] at ht
      exact absurd ht (by simp)
    · rw [if_neg ha] at ht
      have : t = acc.reverse := by
        rcases List.mem_singleton.mp ht with h
        exact h
      right
      rw [this] at hc
      exact List.mem_reverse.mp hc
  | cons d ds ih =>
    intro acc t ht c hc
    unfold splitWsAux at ht
    by_cases hw : d.isWhitespace
    · rw [if_pos hw] at ht
      by_cases ha : acc = []
      · rw [if_pos ha] at ht
        rcases ih [] t ht c hc with h | h
        · exact Or.inl (List.mem_cons_of_mem d h)
        · exact absurd h (by simp)
      · rw [if_neg ha] at ht
        rcases List.mem_cons.mp ht with h | h
        · right
          rw [h] at hc
          exact List.mem_reverse.mp hc
        · rcases ih [] t h c hc with h' | h'
          · exact Or.inl (List.mem_cons_of_mem d h')
          · exact absurd h' (by simp)
    · rw [if_neg hw] at ht
      rcases ih (d :: acc) t ht c hc with h | h
      · exact Or.inl (List.mem_cons_of_mem d h)
      · rcases List.mem_cons.mp h with h' | h'
        · exact Or.inl (by rw [h']; exact List.mem_cons_self d ds)
        · exact Or.inr h'

theorem splitWs_chars_subset (l : List Char) (t : List Char)
    (ht : t ∈ splitWs l) : ∀ c ∈ t, c ∈ l := by
  intro c hc
  rcases splitWsAux_chars_subset l [] t ht c hc with h | h
  · exact h
  · exact absurd h (by simp)

/-- Tokens of `upperStr s` split on whitespace consist of characters fixed
by `Char.toUpper`. -/
theorem splitWs_upperStr_upper_fixed (s : List Char) (t : List Char)
    (ht : t ∈ splitWs (upperStr s)) : ∀ c ∈ t, Char.toUpper c = c := by
  intro c hc
  have hmem : c ∈ upperStr s := splitWs_chars_subset (upperStr s) t ht c hc
  obtain ⟨d, _, hd⟩ := List.mem_map.mp hmem
  rw [← hd]
  exact toUpper_idem d

/-! ## Calendar arithmetic

`pandas.date_range(start, end, freq='H')` and
`datetime.replace(minute=0, second=0, microsecond=0)` as used by
`Imager.load`. -/

/-- `t.replace(minute=0, second=0, microsecond=0)`. -/
def floorHour (t : DT) : DT := { t with minute := 0, second := 0, usec := 0 }

/-- Gregorian leap year. -/
def isLeap (y : Nat) : Bool := (y % 4 == 0 && y % 100 != 0) || (y % 400 == 0)

/-- Days in a Gregorian month. -/
def daysInMonth (y m : Nat) : Nat :=
  if m = 2 then (if isLeap y then 29 else 28)
  else if m = 4 ∨ m = 6 ∨ m = 9 ∨ m = 11 then 30
  else 31

/-- The hour after `t` (hour granularity; minutes and below zeroed by the
callers). -/
def succHour (t : DT) : DT :=
  if t.hour + 1 ≤ 23 then { t with hour := t.hour + 1 }
  else if t.day + 1 ≤ daysInMonth t.year t.month then { t with hour := 0, day := t.day + 1 }
  else if t.month + 1 ≤ 12 then { t with hour := 0, day := 1, month := t.month + 1 }
  else { t with hour := 0, day := 1, month := 1, year := t.year + 1 }

/-- Days in Gregorian years `0, …, y-1` (proleptic). -/
def daysBeforeYear (y : Nat) : Nat :=
  365 * y + (y + 3) / 4 - (y + 99) / 100 + (y + 399) / 400

/-- Days in the months of year `y` before month `m`. -/
def daysBeforeMonth (y m : Nat) : Nat :=
  ((List.range (m - 1)).map (fun i => daysInMonth y (i + 1))).sum

/-- Absolute hour index of a timestamp. -/
def hourAbs (t : DT) : Nat :=
  24 * (daysBeforeYear t.year + daysBeforeMonth t.year t.month + (t.day - 1)) + t.hour

/-- The orbit `[x, f x, f (f x), …]` of length `n`. -/
def iterListN (f : DT → DT) : Nat → DT → List DT
  | 0, _ => []
  | n + 1, x => x :: iterListN f n (f x)

/-- `pd.date_range(start=s, end=e, freq='H')` for hour-floored endpoints:
the hours from `s` to `e` inclusive, empty when `s` is after `e`. -/
def dateRangeHourly (s e : DT) : List DT :=
  if hourAbs s ≤ hourAbs e then iterListN succHour (hourAbs e - hourAbs s + 1) s else []

/-- Insertion step of sorting timestamps by absolute hour. -/
def insertByHourAbs (x : DT) : List DT → List DT
  | [] => [x]
  | y :: ys => if hourAbs x ≤ hourAbs y then x :: y :: ys else y :: insertByHourAbs x ys

/-- Python `sorted` on timestamps (insertion sort; same multiset, ordered). -/
def sortByHourAbs : List DT → List DT
  | [] => []
  | x :: xs => insertByHourAbs x (sortByHourAbs xs)

/-- Python `set(...)`: drop duplicates (keeping first occurrences;
the order is irrelevant because the result is sorted afterwards). -/
def dedupKeepFirst : List DT → List DT → List DT
  | [], _ => []
  | x :: xs, seen =>
    if x ∈ seen then dedupKeepFirst xs seen else x :: dedupKeepFirst xs (x :: seen)

/-- `pd.to_datetime(sorted(set(zeroed_times)))` of `Imager.load`:
the distinct hour floors of the frame timestamps, sorted. -/
def uniqueSortedHours (times : List DT) : List DT :=
  sortByHourAbs (dedupKeepFirst (times.map floorHour) [])

/-! ## The Imager facade (`asilib/imager.py`) -/

/-- The `stations` attribute: Python `None`, a string, or a collection of
station-code strings. -/
inductive Stations where
  | none
  | str (s : List Char)
  | list (l : List (List Char))
deriving DecidableEq

/-- One entry of `Imager.data`: `{'times': …, 'frames': …, 'cal': …}`.
Frames and calibration records are opaque tokens supplied by the
environment; only the timestamps are inspected by the modelled code. -/
structure StationData where
  times : List DT
  frames : List Nat
  cal : Nat
deriving DecidableEq

/-- The external collaborators of `Imager`:
`array_stations` is `array_attributes['station']` (the station column read
from `asilib/data/asi_stations.csv` for the imager's array);
`get_frames` and `load_cal` come from `asilib.io.load`;
`validate_time_range` is `asilib.io.load._validate_time_range`, which
normalizes a time range to a validated `[start, end]` pair. -/
structure LoadEnv where
  array_stations : List (List Char)
  get_frames : Option (DT × DT) → List Char → List Char → Except PyExc (List DT × List Nat)
  load_cal : List Char → List Char → Except PyExc Nat
  validate_time_range : DT × DT → DT × DT

/-- The `data_availability` `pd.DataFrame`: ordered row labels with one
cell per column label; `Option.none` cells are `NaN`. -/
structure Frame2D where
  columns : List DT
  rows : List (List Char × List (Option (List Char)))
deriving DecidableEq

/-- The row-label index of the frame. -/
def Frame2D.index (df : Frame2D) : List (List Char) := df.rows.map Prod.fst

/-- `pd.DataFrame(index=idx, columns=cols)`: all cells `NaN`.
`pd.DataFrame(index=None, …)` yields an empty (0-row) frame, which is the
case `Imager.load` hits when `stations is None`. -/
def Frame2D.mk0 (idx : List (List Char)) (cols : List DT) : Frame2D :=
  ⟨cols, idx.map (fun k => (k, cols.map (fun _ => Option.none)))⟩

/-- `df.replace(np.nan, v, inplace=True)`: fill every `NaN` cell. -/
def Frame2D.fillNa (df : Frame2D) (v : List Char) : Frame2D :=
  ⟨df.columns, df.rows.map (fun r => (r.1, r.2.map (fun c => some (c.getD v))))⟩

/-- `df.loc[station, hours] = v`: assign the listed columns of the row;
when the row label is new, pandas enlarges the frame with a fresh row
whose other cells are `NaN` (this is what happens for every loaded station
when the index started empty). -/
def Frame2D.setLoc (df : Frame2D) (station : List Char) (hours : List DT)
    (v : List Char) : Frame2D :=
  if station ∈ df.index then
    ⟨df.columns, df.rows.map (fun r =>
      if r.1 = station then
        (r.1, List.zipWith (fun col cell => if col ∈ hours then some v else cell)
          df.columns r.2)
      else r)⟩
  else
    ⟨df.columns, df.rows ++
      [(station, df.columns.map (fun col => if col ∈ hours then some v else Option.none))]⟩

/-- The `Imager` instance state.  `hasTimeRange` models
`hasattr(self, 'time_range')` — distinct from the attribute's value being
`None` — because `_check_time_range_exists` tests `hasattr`. -/
structure Imager where
  array : List Char
  stations : Stations
  hasTimeRange : Bool
  time_range : Option (DT × DT)
  data : List (List Char × StationData)
  data_availability : Option Frame2D

/-- `supported_arrays = ['REGO', 'THEMIS']`. -/
def supportedArrays : List (List Char) := [("REGO").toList, ("THEMIS").toList]

/-- The marker substring of the Station-No-Data condition. -/
def noDataNeedle : List Char := ("ASI data not found for station").toList

/-- The condition the `except FileNotFoundError` handler lets through with
`continue`: a `FileNotFoundError` whose `str(err)` contains the needle. -/
def stationNoData : PyExc → Bool
  | .fileNotFound m => decide (noDataNeedle <:+: m)
  | .notADirectory _ => false
  | .attributeError _ => false
  | .other _ => false

/-- `Imager._check_time_range_exists`: raise `AttributeError` when the
argument is `None` and the instance has no `time_range` attribute. -/
def checkTimeRangeExists (im : Imager) (time_range : Option (DT × DT)) :
    Except PyExc Unit :=
  if time_range = Option.none ∧ im.hasTimeRange = false then
    .error (.attributeError
      (("Imager.time_range not found. It must be supplied to __init__() or the called method").toList))
  else .ok ()

/-- `Imager.__init__`: uppercase the array code, store stations and the
(validated) time range — the `time_range` attribute is always assigned,
even when the argument is `None` — and assert the array code is
supported.  Station attributes are read from the CSV (`env`). -/
def Imager.init (env : LoadEnv) (array : List Char) (stations : Stations)
    (time_range : Option (DT × DT)) : Except PyExc Imager :=
  let arrayU := upperStr array
  let tr := match time_range with
    | Option.none => Option.none
    | some p => some (env.validate_time_range p)
  if arrayU ∈ supportedArrays then
    .ok ⟨arrayU, stations, true, tr, [], Option.none⟩
  else
    .error (.other (("AssertionError: array code is invalid").toList))

/-- `Imager.download`: check the time range exists, then only perform
imports (the body is a stub) — no network activity. -/
def Imager.download (im : Imager) (time_range : Option (DT × DT)) :
    Except PyExc Unit :=
  match checkTimeRangeExists im time_range with
  | .error e => .error e
  | .ok _ => .ok ()

/-- The in-place normalization `Imager.load` applies to `self.stations`:
a string is uppercased and whitespace-split; any other collection becomes
a list of uppercased codes; `None` stays `None`. -/
def Stations.normalize : Stations → Stations
  | Stations.none => Stations.none
  | Stations.str s => Stations.list (splitWs (upperStr s))
  | Stations.list l => Stations.list (l.map upperStr)

/-- The station codes the `load` loop iterates over: all of the array's
stations when `stations is None`, otherwise the normalized request. -/
def loopStations (env : LoadEnv) : Stations → List (List Char)
  | Stations.none => env.array_stations
  | Stations.str s => splitWs (upperStr s)
  | Stations.list l => l.map upperStr

/-- The index `pd.DataFrame(index=self.stations, …)` receives after
normalization: `None` gives pandas an empty index; a list gives its
elements.  (The string case cannot be reached after normalization.) -/
def stationsIndex : Stations → List (List Char)
  | Stations.none => []
  | Stations.str _ => []
  | Stations.list l => l

/-- The per-station loop of `Imager.load`: `get_frames`, skipping a
station exactly when it raises the Station-No-Data `FileNotFoundError`,
re-raising every other exception; then `load_cal` (outside the handler),
collecting `{'times', 'frames', 'cal'}` per station in loop order. -/
def loadStationsLoop (env : LoadEnv) (tr : Option (DT × DT)) (array : List Char) :
    List (List Char) → Except PyExc (List (List Char × StationData))
  | [] => .ok []
  | st :: rest =>
    match env.get_frames tr array st with
    | .error e =>
      if stationNoData e then loadStationsLoop env tr array rest
      else .error e
    | .ok tf =>
      match env.load_cal array st with
      | .error e => .error e
      | .ok cal =>
        match loadStationsLoop env tr array rest with
        | .error e => .error e
        | .ok restData => .ok ((st, ⟨tf.1, tf.2, cal⟩) :: restData)

/-- `Imager.load`: check the time range exists, normalize `self.stations`,
run the per-station loop, then rebuild `data_availability` from scratch:
hourly columns over the floored time range, index from `self.stations`,
`NaN` replaced by `'-'`, and each loaded station's distinct hours set to
`'Loaded'` (enlarging the frame when the station is not in the index).
`self.time_range[0]` on a `None` time range raises a `TypeError`. -/
def Imager.load (env : LoadEnv) (im : Imager) (time_range : Option (DT × DT)) :
    Except PyExc Imager :=
  match checkTimeRangeExists im time_range with
  | .error e => .error e
  | .ok _ =>
    match loadStationsLoop env im.time_range im.array (loopStations env im.stations) with
    | .error e => .error e
    | .ok data =>
      match im.time_range with
      | Option.none => .error (.other (("TypeError: NoneType object is not subscriptable").toList))
      | some tr =>
        let dates := dateRangeHourly (floorHour tr.1) (floorHour tr.2)
        let av :=
          (Frame2D.mk0 (stationsIndex (Stations.normalize im.stations)) dates).fillNa
            (("-").toList)
        let av2 := data.foldl
          (fun df kv => df.setLoc kv.1 (uniqueSortedHours kv.2.times) (("Loaded").toList)) av
        .ok { im with
          stations := Stations.normalize im.stations,
          data := data,
          data_availability := some av2 }

/-! ### Uppercase-string helper lemmas -/

theorem upperStr_eq_self (t : List Char) (h : ∀ c ∈ t, Char.toUpper c = c) :
    upperStr t = t := by
  induction t with
  | nil => rfl
  | cons c t ih =>
    have hih := ih (fun x hx => h x (List.mem_cons_of_mem c hx))
    unfold upperStr at hih ⊢
    rw [List.map_cons, h c (List.mem_cons_self c t), hih]

theorem upperStr_idem (s : List Char) : upperStr (upperStr s) = upperStr s := by
  apply upperStr_eq_self
  intro c hc
  obtain ⟨d, _, hd⟩ := List.mem_map.mp hc
  rw [← hd]
  exact toUpper_idem d

/-! ### Claim C3: exactly Station-No-Data is skipped -/

/-- Claim C3: the per-station loop of `Imager.load` skips a station exactly
when `get_frames` raises a `FileNotFoundError` whose message contains
`'ASI data not found for station'`; any other exception aborts the loop and
hence the whole `load()` call. -/
theorem load_skips_exactly_station_no_data (env : LoadEnv) (tr : Option (DT × DT))
    (arr st : List Char) (rest : List (List Char)) (e : PyExc)
    (im : Imager) (t : Option (DT × DT))
    (hg : env.get_frames tr arr st = .error e)
    (hset : im.hasTimeRange = true) (harr : im.array = arr)
    (htr : im.time_range = tr) (hloop : loopStations env im.stations = st :: rest) :
    (stationNoData e = true →
      loadStationsLoop env tr arr (st :: rest) = loadStationsLoop env tr arr rest) ∧
    (stationNoData e = false → loadStationsLoop env tr arr (st :: rest) = .error e) ∧
    (stationNoData e = true ↔ ∃ m, e = .fileNotFound m ∧ noDataNeedle <:+: m) ∧
    (stationNoData e = false → Imager.load env im t = .error e) := by
  have hskip : stationNoData e = true →
      loadStationsLoop env tr arr (st :: rest) = loadStationsLoop env tr arr rest := by
    intro hs
    simp only [loadStationsLoop, hg, hs, if_true]
  have habort : stationNoData e = false →
      loadStationsLoop env tr arr (st :: rest) = .error e := by
    intro hs
    simp only [loadStationsLoop, hg, hs, Bool.false_eq_true, if_false]
  refine ⟨hskip, habort, ?_, ?_⟩
  · cases e with
    | fileNotFound m => simp [stationNoData]
    | notADirectory m => simp [stationNoData]
    | attributeError m => simp [stationNoData]
    | other m => simp [stationNoData]
  · intro hs
    have hc : checkTimeRangeExists im t = .ok () := by
      simp [checkTimeRangeExists, hset]
    have hloop' : loadStationsLoop env im.time_range im.array
        (loopStations env im.stations) = .error e := by
      rw [harr, htr, hloop]
      exact habort hs
    simp only [Imager.load, hc, hloop']

/-- Environment for the C3 witness: `get_frames` always raises the
Station-No-Data `FileNotFoundError`. -/
def env3 : LoadEnv :=
  ⟨[], fun _ _ _ => .error (.fileNotFound (noDataNeedle ++ (" LUCK.").toList)),
    fun _ _ => .ok 0, id⟩

/-- The exception raised in the C3 witness. -/
def e3 : PyExc := .fileNotFound (noDataNeedle ++ (" LUCK.").toList)

/-- Imager for the C3 witness. -/
def im3 : Imager :=
  ⟨("REGO").toList, Stations.list [("LUCK").toList], true, Option.none, [], Option.none⟩

/-- Witness for C3 at a concrete environment where `get_frames` raises the
Station-No-Data error for station LUCK. -/
theorem load_skips_exactly_station_no_data_witness :
    (stationNoData e3 = true →
      loadStationsLoop env3 Option.none (("REGO").toList) [("LUCK").toList] =
        loadStationsLoop env3 Option.none (("REGO").toList) []) ∧
    (stationNoData e3 = false →
      loadStationsLoop env3 Option.none (("REGO").toList) [("LUCK").toList] = .error e3) ∧
    (stationNoData e3 = true ↔ ∃ m, e3 = .fileNotFound m ∧ noDataNeedle <:+: m) ∧
    (stationNoData e3 = false → Imager.load env3 im3 Option.none = .error e3) :=
  load_skips_exactly_station_no_data env3 Option.none (("REGO").toList) (("LUCK").toList)
    [] e3 im3 Option.none rfl rfl rfl rfl (by decide)

/-! ### Claim C7: the missing-time-range guard is dead code -/

/-- Claim C7 (code bug): `__init__` always assigns `self.time_range`, so
`hasattr(self, 'time_range')` is true on every constructed `Imager` and
`_check_time_range_exists` can never raise: `download()` on an imager
built without a time range and called without one returns normally
instead of raising the documented `AttributeError`. -/
theorem init_then_download_no_attribute_error (env : LoadEnv) (array : List Char)
    (stations : Stations) (im : Imager)
    (h : Imager.init env array stations Option.none = .ok im) :
    im.hasTimeRange = true ∧
    checkTimeRangeExists im Option.none = .ok () ∧
    Imager.download im Option.none = .ok () := by
  simp only [Imager.init] at h
  by_cases hs : upperStr array ∈ supportedArrays
  · rw [if_pos hs] at h
    cases h
    exact ⟨rfl, rfl, rfl⟩
  · rw [if_neg hs] at h
    exact absurd h (by simp)

/-- Environment with no stations and failing loaders, for the C7 witness. -/
def trivialEnv : LoadEnv :=
  ⟨[], fun _ _ _ => .error (.other []), fun _ _ => .error (.other []), id⟩

/-- The imager `Imager('THEMIS', stations=None, time_range=None)`. -/
def im7 : Imager :=
  ⟨("THEMIS").toList, Stations.none, true, Option.none, [], Option.none⟩

/-- Witness for C7: the concrete no-time-range imager passes the check and
`download()` returns normally. -/
theorem init_then_download_no_attribute_error_witness :
    im7.hasTimeRange = true ∧
    checkTimeRangeExists im7 Option.none = .ok () ∧
    Imager.download im7 Option.none = .ok () :=
  init_then_download_no_attribute_error trivialEnv (("THEMIS").toList) Stations.none
    im7 rfl

/-! ### Claim C9: the time_range argument of load is ignored -/

/-- Claim C9: on an imager constructed with a time range, `load(t)` behaves
exactly like `load(None)` for every `t` — the argument is only passed to
the (vacuous) existence check, is never stored, and the result's
`time_range` is the one from construction. -/
theorem load_ignores_time_range_argument (env : LoadEnv) (im : Imager)
    (t : Option (DT × DT)) (tr : DT × DT) (im' : Imager)
    (hset : im.hasTimeRange = true) (htr : im.time_range = some tr)
    (hok : Imager.load env im t = .ok im') :
    Imager.load env im t = Imager.load env im Option.none ∧
    im'.time_range = im.time_range := by
  have hc : ∀ u, checkTimeRangeExists im u = .ok () := by
    intro u
    simp [checkTimeRangeExists, hset]
  constructor
  · simp only [Imager.load, hc]
  · simp only [Imager.load, hc] at hok
    cases hloop : loadStationsLoop env im.time_range im.array (loopStations env im.stations) with
    | error e =>
      rw [hloop] at hok
      exact absurd hok (by simp)
    | ok data =>
      rw [hloop, htr] at hok
      cases hok
      exact htr.symm

/-- Environment for the C9 and C10 witnesses. -/
def env9 : LoadEnv :=
  ⟨[], fun _ _ _ => .error (.other []), fun _ _ => .error (.other []), id⟩

/-- A time range inside hour 0 of year 1. -/
def tr9 : DT × DT := (⟨1, 1, 1, 0, 0, 0, 0⟩, ⟨1, 1, 1, 0, 59, 0, 0⟩)

/-- Imager constructed with time range `tr9` and no stations. -/
def im9 : Imager := ⟨("REGO").toList, Stations.none, true, some tr9, [], Option.none⟩

/-- The imager `load` returns for `im9` under `env9`: no data, and an
availability table with one hourly column and an empty index. -/
def im9r : Imager :=
  ⟨("REGO").toList, Stations.none, true, some tr9, [],
    some ⟨[⟨1, 1, 1, 0, 0, 0, 0⟩], []⟩⟩

/-- Witness for C9: a concrete `load` with an explicit time-range argument
equals `load(None)` and keeps the constructed time range. -/
theorem load_ignores_time_range_argument_witness :
    Imager.load env9 im9 (some (⟨2, 2, 2, 2, 0, 0, 0⟩, ⟨2, 2, 2, 3, 0, 0, 0⟩)) =
      Imager.load env9 im9 Option.none ∧
    im9r.time_range = im9.time_range :=
  load_ignores_time_range_argument env9 im9
    (some (⟨2, 2, 2, 2, 0, 0, 0⟩, ⟨2, 2, 2, 3, 0, 0, 0⟩)) tr9 im9r rfl rfl rfl

/-! ### Claim C10: load normalizes self.stations -/

/-- Claim C10: whenever `load()` returns normally, `self.stations` has been
normalized in place — a string was uppercased and whitespace-split, any
other non-None collection became a list of uppercased codes — so the
result's `stations` is `None` or a list of uppercase strings. -/
theorem load_normalizes_stations (env : LoadEnv) (im : Imager)
    (t : Option (DT × DT)) (im' : Imager)
    (h : Imager.load env im t = .ok im') :
    im'.stations = Stations.normalize im.stations ∧
    (im'.stations = Stations.none ∨
      ∃ ts, im'.stations = Stations.list ts ∧ ∀ s ∈ ts, upperStr s = s) := by
  have hst : im'.stations = Stations.normalize im.stations := by
    unfold Imager.load at h
    cases hc : checkTimeRangeExists im t with
    | error e =>
      rw [hc] at h
      exact absurd h (by simp)
    | ok u =>
      rw [hc] at h
      cases hloop : loadStationsLoop env im.time_range im.array (loopStations env im.stations) with
      | error e =>
        rw [hloop] at h
        exact absurd h (by simp)
      | ok data =>
        rw [hloop] at h
        cases htr : im.time_range with
        | none =>
          rw [htr] at h
          exact absurd h (by simp)
        | some tr =>
          rw [htr] at h
          cases h
          rfl
  refine ⟨hst, ?_⟩
  rw [hst]
  cases hs : im.stations with
  | none => left; rfl
  | str s =>
    right
    refine ⟨splitWs (upperStr s), rfl, ?_⟩
    intro tok htok
    exact upperStr_eq_self tok (splitWs_upperStr_upper_fixed s tok htok)
  | list l =>
    right
    refine ⟨l.map upperStr, rfl, ?_⟩
    intro tok htok
    obtain ⟨s₀, _, hs₀⟩ := List.mem_map.mp htok
    rw [← hs₀]
    exact upperStr_idem s₀

/-- Imager with a whitespace-separated string of lowercase stations. -/
def im10 : Imager :=
  ⟨("REGO").toList, Stations.str (("gill rank").toList), true, some tr9, [], Option.none⟩

/-- Environment for the C10 witness: `get_frames` raises Station-No-Data
for every station, so the loop completes by skipping them all. -/
def env10 : LoadEnv :=
  ⟨[], fun _ _ _ => .error (.fileNotFound noDataNeedle), fun _ _ => .ok 0, id⟩

/-- The imager `load` returns for `im10` under `env10`: both stations are
skipped, the index holds the normalized station list with `'-'` cells. -/
def im10r : Imager :=
  ⟨("REGO").toList, Stations.list [("GILL").toList, ("RANK").toList], true, some tr9, [],
    some ⟨[⟨1, 1, 1, 0, 0, 0, 0⟩],
      [(("GILL").toList, [some (("-").toList)]), (("RANK").toList, [some (("-").toList)])]⟩⟩

/-- Witness for C10: the lowercase string `'gill rank'` is normalized to
the uppercase list on a completed `load`. -/
theorem load_normalizes_stations_witness :
    im10r.stations = Stations.normalize im10.stations ∧
    (im10r.stations = Stations.none ∨
      ∃ ts, im10r.stations = Stations.list ts ∧ ∀ s ∈ ts, upperStr s = s) :=
  load_normalizes_stations env10 im10 Option.none im10r rfl

/-! ### Claim C8: the availability table with stations=None -/

/-- Start of the one-hour C8 time range. -/
def tr8a : DT := ⟨2008, 3, 9, 7, 39, 0, 0⟩

/-- End of the one-hour C8 time range. -/
def tr8b : DT := ⟨2008, 3, 9, 7, 40, 0, 0⟩

/-- The floored hour of the C8 range. -/
def hour8 : DT := ⟨2008, 3, 9, 7, 0, 0, 0⟩

/-- Station with remote data in the C8 scenario. -/
def gillStation : List Char := ("GILL").toList

/-- Station without remote data in the C8 scenario. -/
def rankStation : List Char := ("RANK").toList

/-- Environment for C8: the THEMIS array knows stations GILL and RANK;
GILL has one frame at 07:39, RANK raises Station-No-Data. -/
def env8 : LoadEnv :=
  ⟨[gillStation, rankStation],
    fun _ _ st =>
      if st = gillStation then .ok ([tr8a], [7])
      else .error (.fileNotFound (noDataNeedle ++ (" rank").toList)),
    fun _ _ => .ok 0, id⟩

/-- `Imager('THEMIS', stations=None, time_range=[tr8a, tr8b])`. -/
def im8 : Imager :=
  ⟨("THEMIS").toList, Stations.none, true, some (tr8a, tr8b), [], Option.none⟩

/-- The availability table `load` actually builds in the C8 scenario:
since `self.stations` is `None`, the frame starts with an empty index and
only the loaded station GILL is added by enlargement — RANK gets no row at
all, so no cell of it carries the `'-'` marker. -/
def av8 : Frame2D := ⟨[hour8], [(gillStation, [some (("Loaded").toList)])]⟩

/-- The imager `load` returns in the C8 scenario. -/
def im8r : Imager :=
  ⟨("THEMIS").toList, Stations.none, true, some (tr8a, tr8b),
    [(gillStation, ⟨[tr8a], [7], 0⟩)], some av8⟩

/-- Claim C8 (code bug, failing input): with `stations=None`, one station
loaded and one missing, `load()` completes without raising and marks the
present station's hour `Loaded`, but the availability table's index
contains only the loaded station — the missing station has no row, hence
no `'-'` cell, contradicting the claimed station-by-hour table. -/
theorem load_availability_drops_missing_station :
    Imager.load env8 im8 Option.none = .ok im8r ∧
    im8r.data_availability = some av8 ∧
    av8.index = [gillStation] ∧
    av8.rows = [(gillStation, [some (("Loaded").toList)])] ∧
    rankStation ∉ av8.index := by
  refine ⟨rfl, rfl, rfl, rfl, ?_⟩
  decide
